import Mathlib

/-!
Shallow embedding of the `grev` crate (src/lib.rs): a build-script helper
that shells out to `git` to compute a revision identifier and emit
`cargo:rerun-if-changed` directives.

Modelling choices:
* A run of the library is parameterised by a `GitEnv`, an oracle giving the
  outcome (launch failure, or exit code plus captured stdout bytes) of each
  external `git` invocation, keyed by working directory and argument list.
* Byte strings (`Vec<u8>`, `OsStr` on unix) are `List Nat`; Rust `String`
  is `List Char`; `String::from_utf8` is an executable UTF-8 decoder.
* Effects are threaded through a state-and-error monad `M`: the state
  records the trace of spawned commands and the lines written to the
  output sink (structured as `SinkLine`); the error channel carries either
  an `anyhow` style error (`GrevError`) or a Rust panic.
* The sink writer is modelled as infallible (writes always succeed), so a
  `writeln!` never raises; this matches the spec's line-oriented sink.
-/

namespace Grev

abbrev Bytes := List Nat
abbrev Str := List Char

/-- Encode an ASCII string literal as its byte sequence (used only to embed
the ASCII literals appearing in the source). -/
def asciiBytes (s : String) : Bytes := s.data.map Char.toNat

/-- Is `b` a UTF-8 continuation byte (`0x80..0xBF`)? -/
def utf8Cont (b : Nat) : Bool := 0x80 ≤ b && b < 0xC0

/-- Executable model of `String::from_utf8`: strict UTF-8 decoding of a byte
sequence, rejecting continuation-byte errors, overlong forms, surrogates and
out-of-range code points. -/
def decodeUtf8 : List Nat → Option (List Char)
  | [] => some []
  | b :: rest =>
    if b < 0x80 then
      (decodeUtf8 rest).map fun cs => Char.ofNat b :: cs
    else if b < 0xC2 then
      none
    else if b < 0xE0 then
      match rest with
      | b1 :: rest1 =>
        if utf8Cont b1 then
          (decodeUtf8 rest1).map fun cs =>
            Char.ofNat ((b - 0xC0) * 0x40 + (b1 - 0x80)) :: cs
        else none
      | [] => none
    else if b < 0xF0 then
      match rest with
      | b1 :: b2 :: rest2 =>
        if utf8Cont b1 && utf8Cont b2 then
          let cp := (b - 0xE0) * 0x1000 + (b1 - 0x80) * 0x40 + (b2 - 0x80)
          if 0x800 ≤ cp && (cp < 0xD800 || 0xE000 ≤ cp) then
            (decodeUtf8 rest2).map fun cs => Char.ofNat cp :: cs
          else none
        else none
      | _ => none
    else if b < 0xF5 then
      match rest with
      | b1 :: b2 :: b3 :: rest3 =>
        if utf8Cont b1 && utf8Cont b2 && utf8Cont b3 then
          let cp := (b - 0xF0) * 0x40000 + (b1 - 0x80) * 0x1000 +
            (b2 - 0x80) * 0x40 + (b3 - 0x80)
          if 0x10000 ≤ cp && cp < 0x110000 then
            (decodeUtf8 rest3).map fun cs => Char.ofNat cp :: cs
          else none
        else none
      | _ => none
    else none

/-- The Unicode `White_Space` property, as used by Rust's
`char::is_whitespace` (and hence `str::trim`). -/
def isRustWhitespace (c : Char) : Bool :=
  c = ' ' || c = '\t' || c = '\n' || c = '\x0b' || c = '\x0c' || c = '\r' ||
  c.toNat = 0x85 || c.toNat = 0xA0 || c.toNat = 0x1680 ||
  (0x2000 ≤ c.toNat && c.toNat ≤ 0x200A) ||
  c.toNat = 0x2028 || c.toNat = 0x2029 || c.toNat = 0x202F ||
  c.toNat = 0x205F || c.toNat = 0x3000

/-- Model of Rust's `str::trim`: strip leading and trailing whitespace. -/
def rustTrim (s : Str) : Str :=
  ((s.dropWhile isRustWhitespace).reverse.dropWhile isRustWhitespace).reverse

/-- Model of unix `Path::join` on byte paths: an absolute right operand
replaces the left one; otherwise the right operand is appended, inserting a
`/` separator unless one is already present. -/
def pathJoin (a b : Bytes) : Bytes :=
  if b.head? = some 0x2F then b
  else if a.getLast? = some 0x2F then a ++ b
  else if a = [] then b
  else a ++ 0x2F :: b

/-- Model of Rust's `slice::split` specialised to splitting on the NUL
byte: subslices between NUL separators, in order (an empty input yields one
empty subslice, a trailing NUL yields a trailing empty subslice). -/
def splitOnNul : Bytes → List Bytes
  | [] => [[]]
  | b :: rest =>
    if b = 0 then [] :: splitOnNul rest
    else
      match splitOnNul rest with
      | s :: ss => (b :: s) :: ss
      | [] => [[b]]

/-! ## The external-command oracle and the effect monad -/

/-- Outcome of attempting to spawn one external command. -/
inductive ExecResult where
  | noLaunch : ExecResult
  | exited (code : Option Int) (stdout : Bytes) : ExecResult
deriving DecidableEq

/-- The environment: what each `git` invocation (working directory plus
argument list) does. -/
structure GitEnv where
  exec : Bytes → List Bytes → ExecResult

/-- The `anyhow` style hard errors the crate produces, with the offending
command line attached. -/
inductive GrevError where
  | launch (cmd : List Bytes) : GrevError
  | exitStatus (cmd : List Bytes) (code : Option Int) : GrevError
  | encoding (cmd : List Bytes) : GrevError
deriving DecidableEq

/-- A run either raises a `Result` error or a Rust panic. -/
inductive RunError where
  | grev (e : GrevError) : RunError
  | panic : RunError
deriving DecidableEq

/-- One line written to the output sink, structured by the three `writeln!`
sites in the source. -/
inductive SinkLine where
  | rerunIfChanged (path : Bytes) : SinkLine
  | warnNotInRepo : SinkLine
  | warnGitFailed (e : GrevError) : SinkLine
deriving DecidableEq

/-- Observable state of a run: commands spawned so far (in order) and sink
lines written so far (in order). -/
structure RunState where
  trace : List (List Bytes)
  sink : List SinkLine
deriving DecidableEq

def RunState.init : RunState := ⟨[], []⟩

/-- The effect monad: state threading plus an error channel that preserves
the state accumulated before the error. -/
def M (α : Type) := RunState → Except RunError α × RunState

instance : Monad M where
  pure a := fun s => (.ok a, s)
  bind x f := fun s =>
    match x s with
    | (.ok a, s1) => f a s1
    | (.error e, s1) => (.error e, s1)

def mThrow (e : RunError) : M α := fun s => (.error e, s)

/-- Reify the error channel of a computation, as Rust code does when it
pattern-matches a `Result` instead of applying the propagation operator.
A panic is not catchable this way and is re-raised. -/
def observe (x : M α) : M (Except GrevError α) := fun s =>
  match x s with
  | (.ok a, s1) => (.ok (.ok a), s1)
  | (.error (.grev e), s1) => (.ok (.error e), s1)
  | (.error .panic, s1) => (.error .panic, s1)

/-- Spawn one external command: record it in the trace and ask the oracle
for its outcome. -/
def spawn (env : GitEnv) (dir : Bytes) (args : List Bytes) : M ExecResult :=
  fun s => (.ok (env.exec dir args), { s with trace := s.trace ++ [args] })

/-- Write one line to the sink (`writeln!`; modelled as infallible). -/
def emit (line : SinkLine) : M Unit :=
  fun s => (.ok (), { s with sink := s.sink ++ [line] })

/-! ## The embedded library functions -/

/-- Model of `git_raw_output`: run git, fail on launch error or non-zero exit,
otherwise return captured stdout bytes. -/
def git_raw_output (env : GitEnv) (dir : Bytes) (args : List Bytes) : M Bytes := do
  match ← spawn env dir args with
  | .noLaunch => mThrow (.grev (.launch args))
  | .exited code out =>
    if code = some 0 then pure out
    else mThrow (.grev (.exitStatus args code))

/-- Model of `git_output`: `git_raw_output` plus `String::from_utf8`. -/
def git_output (env : GitEnv) (dir : Bytes) (args : List Bytes) : M Str := do
  let output ← git_raw_output env dir args
  match decodeUtf8 output with
  | some s => pure s
  | none => mThrow (.grev (.encoding args))

/-- Model of `git_run`: run git silently and report whether it exited successfully;
only a launch failure is an error.  The `Result` is returned reified
because the one caller pattern-matches it. -/
def git_run (env : GitEnv) (dir : Bytes) (args : List Bytes) :
    M (Except GrevError Bool) := do
  match ← spawn env dir args with
  | .noLaunch => pure (.error (.launch args))
  | .exited code _ => pure (.ok (code = some 0))

/-- Model of `bytes_to_path`, unix variant: a byte slice is a path verbatim; this
conversion is infallible. -/
def bytes_to_path (bytes : Bytes) : M Bytes := pure bytes

/-- Model of the slicing `&out[..out.len() - 1]`: on an empty slice the
length subtraction underflows and the operation panics. -/
def sliceUpToLenMinusOne (out : Bytes) : M Bytes :=
  if out = [] then mThrow .panic else pure out.dropLast

def probeCmd : List Bytes := [asciiBytes "rev-parse", asciiBytes "--git-dir"]
def absGitDirCmd : List Bytes := [asciiBytes "rev-parse", asciiBytes "--absolute-git-dir"]
def describeCmd : List Bytes :=
  [asciiBytes "describe", asciiBytes "--exact-match", asciiBytes "--tags", asciiBytes "HEAD"]
def shortHashCmd : List Bytes := [asciiBytes "rev-parse", asciiBytes "--short", asciiBytes "HEAD"]
def statusCmd : List Bytes :=
  [asciiBytes "status", asciiBytes "--porcelain", asciiBytes "--untracked-files=no"]
def topLevelCmd : List Bytes := [asciiBytes "rev-parse", asciiBytes "--show-toplevel"]
def lsFilesCmd (topLevel : Bytes) : List Bytes :=
  [asciiBytes "-C", topLevel, asciiBytes "ls-files", asciiBytes "--full-name", asciiBytes "-z"]

/-- The fixed watch list `["HEAD", "index", "refs/"]`. -/
def PATHS : List Bytes := [asciiBytes "HEAD", asciiBytes "index", asciiBytes "refs/"]

/-- Model of `Iterator::try_for_each`: run the action on each element in
order, stopping at the first failure. -/
def try_for_each (l : List α) (f : α → M Unit) : M Unit :=
  match l with
  | [] => pure ()
  | x :: xs => do
    let () ← f x
    try_for_each xs f

/-- Model of `Iterator::collect::<Result<Vec<_>>>` over a mapped list: run
the fallible function on each element in order, collecting the results and
stopping at the first failure. -/
def collectResults (l : List α) (f : α → M β) : M (List β) :=
  match l with
  | [] => pure []
  | x :: xs => do
    let y ← f x
    let ys ← collectResults xs f
    pure (y :: ys)

/-- Model of `print_rerun_if_changed`: resolve the absolute git dir (stripping the
trailing byte of the output), then emit one `cargo:rerun-if-changed`
directive per fixed metadata path and one per source, each joined onto the
git dir. -/
def print_rerun_if_changed (env : GitEnv) (dir : Bytes) (sources : List Bytes) :
    M Unit := do
  let git_dir0 ← git_raw_output env dir absGitDirCmd
  let git_dir1 ← sliceUpToLenMinusOne git_dir0
  let git_dir ← bytes_to_path git_dir1
  let () ← try_for_each PATHS fun path => emit (.rerunIfChanged (pathJoin git_dir path))
  let () ← try_for_each sources fun path => emit (.rerunIfChanged (pathJoin git_dir path))
  pure ()

/-- Model of `with_valid_git`: gate on the repository probe; on a clean failure or a
launch failure write a warning and return `Ok(None)`, otherwise run `f`. -/
def with_valid_git (env : GitEnv) (dir : Bytes) (f : M (Option Str)) :
    M (Option Str) := do
  match ← git_run env dir probeCmd with
  | .ok true => f
  | .ok false => do
    emit .warnNotInRepo
    pure none
  | .error err => do
    emit (.warnGitFailed err)
    pure none

/-- Model of `revision_bare_impl`: emit directives, then resolve the base identifier
(exact tag, falling back to the short hash) and trim it. -/
def revision_bare_impl (env : GitEnv) (dir : Bytes) (sources : List Bytes) :
    M (Option Str) := do
  let () ← print_rerun_if_changed env dir sources
  let revision ← do
    match ← observe (git_output env dir describeCmd) with
    | .ok tag => pure tag
    | .error _ => git_output env dir shortHashCmd
  pure (some (rustTrim revision))

/-- Model of `revision_impl`: the bare revision plus a trailing `+` when the status
command reports local changes. -/
def revision_impl (env : GitEnv) (dir : Bytes) (sources : List Bytes) :
    M (Option Str) := do
  match ← revision_bare_impl env dir sources with
  | some revision => do
    let local_changes ← git_raw_output env dir statusCmd
    let modified := !local_changes.isEmpty
    pure (some (revision ++ if modified then ['+'] else []))
  | none => pure none

/-- Model of `list_tracked_objects`: resolve the top-level directory (stripping the
trailing byte), list tracked files NUL-separated, split on NUL, drop empty
segments, and join each onto the top-level directory. -/
def list_tracked_objects (env : GitEnv) (dir : Bytes) : M (List Bytes) := do
  let top_level0 ← git_raw_output env dir topLevelCmd
  let top_level1 ← sliceUpToLenMinusOne top_level0
  let top_level ← bytes_to_path top_level1
  let output ← git_raw_output env dir (lsFilesCmd top_level)
  let paths ← collectResults
    ((splitOnNul output).filter fun object => !object.isEmpty)
    fun object => do
      let p ← bytes_to_path object
      pure (pathJoin top_level p)
  pure paths

/-- Model of `get_revision` (deprecated entry point): auto variant with an empty
source list. -/
def get_revision (env : GitEnv) (dir : Bytes) : M (Option Str) :=
  with_valid_git env dir (revision_impl env dir [])

/-- Model of `git_revision_bare`: bare variant with an empty source list. -/
def git_revision_bare (env : GitEnv) (dir : Bytes) : M (Option Str) :=
  with_valid_git env dir (revision_bare_impl env dir [])

/-- Model of `git_revision` (deprecated entry point): auto variant with
caller-supplied sources. -/
def git_revision (env : GitEnv) (dir : Bytes) (sources : List Bytes) :
    M (Option Str) :=
  with_valid_git env dir (revision_impl env dir sources)

/-- Model of `git_revision_auto`: auto variant over the auto-discovered tracked
files. -/
def git_revision_auto (env : GitEnv) (dir : Bytes) : M (Option Str) :=
  with_valid_git env dir (do
    let sources ← list_tracked_objects env dir
    revision_impl env dir sources)

/-- Run a computation from the initial (empty) state. -/
def runM (x : M α) : Except RunError α × RunState := x RunState.init

/-! ## Derived notions used in the statements -/

/-- A git command from which textual output is required fails when the
process cannot be launched, exits non-zero, or emits invalid UTF-8. -/
def textCmdFails (env : GitEnv) (dir : Bytes) (args : List Bytes) : Prop :=
  match env.exec dir args with
  | .noLaunch => True
  | .exited code out => code ≠ some 0 ∨ decodeUtf8 out = none

instance (env : GitEnv) (dir : Bytes) (args : List Bytes) :
    Decidable (textCmdFails env dir args) := by
  unfold textCmdFails
  cases env.exec dir args <;> infer_instance

/-- The sink lines `print_rerun_if_changed` produces on success: the three
fixed metadata paths and then the sources, each joined onto the git dir. -/
def rerunLines (git_dir : Bytes) (sources : List Bytes) : List SinkLine :=
  PATHS.map (fun p => .rerunIfChanged (pathJoin git_dir p)) ++
    sources.map (fun p => .rerunIfChanged (pathJoin git_dir p))

/-- A well-behaved metadata-directory lookup: the command succeeds with
non-empty output. -/
def absGitDirOk (env : GitEnv) (dir : Bytes) (out : Bytes) : Prop :=
  env.exec dir absGitDirCmd = .exited (some 0) out ∧ out ≠ []

/-- Where a successfully resolved base identifier comes from: either the
exact-tag describe invocation succeeded with this text, or it failed and
the short-hash invocation succeeded with this text. -/
def baseResolved (env : GitEnv) (dir : Bytes) (t : Str) : Prop :=
  (∃ out, env.exec dir describeCmd = .exited (some 0) out ∧ decodeUtf8 out = some t) ∨
  (textCmdFails env dir describeCmd ∧
    ∃ out, env.exec dir shortHashCmd = .exited (some 0) out ∧ decodeUtf8 out = some t)

/-- The exact shape of `git ls-files -z` output: each file name followed by
a NUL terminator. -/
def nulConcat (names : List Bytes) : Bytes :=
  names.foldr (fun n acc => n ++ 0 :: acc) []

/-- Is this sink line one of the two warning directives? -/
def SinkLine.isWarning : SinkLine → Prop
  | .rerunIfChanged _ => False
  | .warnNotInRepo => True
  | .warnGitFailed _ => True

/-! ## Concrete environments used as witnesses -/

/-- The directory handed to the entry points in concrete runs. -/
def dirRepo : Bytes := asciiBytes "/repo"

/-- A repository at `/repo`: tag `v1` at HEAD, one modified tracked file,
two tracked files (one with a space, one with a leading dash). -/
def envTag : GitEnv :=
  ⟨fun _dir args =>
    if args = probeCmd then .exited (some 0) []
    else if args = absGitDirCmd then .exited (some 0) (asciiBytes "/repo/.git" ++ [0x0A])
    else if args = describeCmd then .exited (some 0) (asciiBytes "v1" ++ [0x0A])
    else if args = statusCmd then .exited (some 0) (asciiBytes " M lib.rs" ++ [0x0A])
    else if args = topLevelCmd then .exited (some 0) (asciiBytes "/repo" ++ [0x0A])
    else if args = lsFilesCmd (asciiBytes "/repo") then
      .exited (some 0) (nulConcat [asciiBytes "a b", asciiBytes "-c"])
    else .noLaunch⟩

/-- A repository with no tag at HEAD: describe exits non-zero and the
short hash resolves; the working tree is clean. -/
def envHash : GitEnv :=
  ⟨fun _dir args =>
    if args = probeCmd then .exited (some 0) []
    else if args = absGitDirCmd then .exited (some 0) (asciiBytes "/repo/.git" ++ [0x0A])
    else if args = describeCmd then .exited (some 128) []
    else if args = shortHashCmd then .exited (some 0) (asciiBytes "abc1234" ++ [0x0A])
    else if args = statusCmd then .exited (some 0) []
    else if args = topLevelCmd then .exited (some 0) (asciiBytes "/repo" ++ [0x0A])
    else if args = lsFilesCmd (asciiBytes "/repo") then .exited (some 0) []
    else .noLaunch⟩

/-- A directory that is not inside a git repository: the probe exits with
status 128. -/
def envNotRepo : GitEnv :=
  ⟨fun _dir args => if args = probeCmd then .exited (some 128) [] else .noLaunch⟩

/-- Git cannot be launched at all. -/
def envNoGit : GitEnv := ⟨fun _ _ => .noLaunch⟩

/-- A degenerate tool whose path-reporting commands succeed with empty
output (exercises the slicing panic). -/
def envEmptyMeta : GitEnv :=
  ⟨fun _dir args =>
    if args = probeCmd then .exited (some 0) []
    else if args = absGitDirCmd then .exited (some 0) []
    else if args = topLevelCmd then .exited (some 0) []
    else .noLaunch⟩

/-! ## Step lemmas for symbolic evaluation -/

theorem M.pure_apply (a : α) (s : RunState) : (pure a : M α) s = (.ok a, s) := rfl

theorem M.bind_apply (x : M α) (f : α → M β) (s : RunState) :
    (x >>= f) s =
      match x s with
      | (.ok a, s1) => f a s1
      | (.error e, s1) => (.error e, s1) := rfl

theorem M.bind_apply_ok {x : M α} {s s1 : RunState} {a : α} (f : α → M β)
    (h : x s = (.ok a, s1)) : (x >>= f) s = f a s1 := by
  rw [M.bind_apply, h]

theorem M.bind_apply_error {x : M α} {s s1 : RunState} {e : RunError} (f : α → M β)
    (h : x s = (.error e, s1)) : (x >>= f) s = (.error e, s1) := by
  rw [M.bind_apply, h]

theorem spawn_apply (env : GitEnv) (dir : Bytes) (args : List Bytes) (s : RunState) :
    spawn env dir args s = (.ok (env.exec dir args), ⟨s.trace ++ [args], s.sink⟩) := rfl

theorem emit_apply (line : SinkLine) (s : RunState) :
    emit line s = (.ok (), ⟨s.trace, s.sink ++ [line]⟩) := rfl

theorem mThrow_apply (e : RunError) (s : RunState) :
    (mThrow e : M α) s = (.error e, s) := rfl

theorem git_raw_output_ok {env : GitEnv} {dir : Bytes} {args : List Bytes} {out : Bytes}
    (h : env.exec dir args = .exited (some 0) out) (s : RunState) :
    git_raw_output env dir args s = (.ok out, ⟨s.trace ++ [args], s.sink⟩) := by
  unfold git_raw_output
  rw [M.bind_apply_ok _ (spawn_apply env dir args s), h]
  simp [M.pure_apply]

theorem git_raw_output_noLaunch {env : GitEnv} {dir : Bytes} {args : List Bytes}
    (h : env.exec dir args = .noLaunch) (s : RunState) :
    git_raw_output env dir args s =
      (.error (.grev (.launch args)), ⟨s.trace ++ [args], s.sink⟩) := by
  unfold git_raw_output
  rw [M.bind_apply_ok _ (spawn_apply env dir args s), h]
  rfl

theorem git_raw_output_exitFail {env : GitEnv} {dir : Bytes} {args : List Bytes}
    {code : Option Int} {out : Bytes}
    (h : env.exec dir args = .exited code out) (hc : code ≠ some 0) (s : RunState) :
    git_raw_output env dir args s =
      (.error (.grev (.exitStatus args code)), ⟨s.trace ++ [args], s.sink⟩) := by
  unfold git_raw_output
  rw [M.bind_apply_ok _ (spawn_apply env dir args s), h]
  simp [hc, mThrow_apply]

theorem git_output_ok {env : GitEnv} {dir : Bytes} {args : List Bytes} {out : Bytes} {t : Str}
    (h : env.exec dir args = .exited (some 0) out) (hd : decodeUtf8 out = some t)
    (s : RunState) :
    git_output env dir args s = (.ok t, ⟨s.trace ++ [args], s.sink⟩) := by
  unfold git_output
  rw [M.bind_apply_ok _ (git_raw_output_ok h s), hd]
  rfl

theorem git_output_fails {env : GitEnv} {dir : Bytes} {args : List Bytes}
    (h : textCmdFails env dir args) (s : RunState) :
    ∃ e, git_output env dir args s =
      (.error (.grev e), ⟨s.trace ++ [args], s.sink⟩) := by
  unfold textCmdFails at h
  unfold git_output
  cases hx : env.exec dir args with
  | noLaunch =>
    exact ⟨_, M.bind_apply_error _ (git_raw_output_noLaunch hx s)⟩
  | exited code out =>
    rw [hx] at h
    by_cases hc : code = some 0
    · subst hc
      rcases h with h | h
      · exact absurd rfl h
      · refine ⟨.encoding args, ?_⟩
        rw [M.bind_apply_ok _ (git_raw_output_ok hx s), h]
        rfl
    · exact ⟨_, M.bind_apply_error _ (git_raw_output_exitFail hx hc s)⟩

theorem git_run_apply (env : GitEnv) (dir : Bytes) (args : List Bytes) (s : RunState) :
    git_run env dir args s =
      (.ok (match env.exec dir args with
            | .noLaunch => .error (.launch args)
            | .exited code _ => .ok (decide (code = some 0))),
       ⟨s.trace ++ [args], s.sink⟩) := by
  unfold git_run
  rw [M.bind_apply_ok _ (spawn_apply env dir args s)]
  cases env.exec dir args <;> simp [M.pure_apply]

theorem sliceUpToLenMinusOne_ok {out : Bytes} (h : out ≠ []) (s : RunState) :
    sliceUpToLenMinusOne out s = (.ok out.dropLast, s) := by
  unfold sliceUpToLenMinusOne
  simp [h, M.pure_apply]

theorem sliceUpToLenMinusOne_panic (s : RunState) :
    sliceUpToLenMinusOne [] s = (.error .panic, s) := rfl

theorem bytes_to_path_apply (bytes : Bytes) (s : RunState) :
    bytes_to_path bytes s = (.ok bytes, s) := rfl

theorem try_for_each_emit (f : Bytes → SinkLine) (l : List Bytes) (s : RunState) :
    try_for_each l (fun p => emit (f p)) s =
      (.ok (), ⟨s.trace, s.sink ++ l.map f⟩) := by
  induction l generalizing s with
  | nil => simp [try_for_each, M.pure_apply]
  | cons x xs ih =>
    unfold try_for_each
    rw [M.bind_apply_ok _ (emit_apply (f x) s), ih]
    simp

theorem observe_apply (x : M α) (s : RunState) :
    observe x s =
      match x s with
      | (.ok a, s1) => (.ok (.ok a), s1)
      | (.error (.grev e), s1) => (.ok (.error e), s1)
      | (.error .panic, s1) => (.error .panic, s1) := rfl

theorem observe_apply_ok {x : M α} {s s1 : RunState} {a : α}
    (h : x s = (.ok a, s1)) : observe x s = (.ok (.ok a), s1) := by
  rw [observe_apply, h]

theorem observe_apply_grev {x : M α} {s s1 : RunState} {e : GrevError}
    (h : x s = (.error (.grev e), s1)) : observe x s = (.ok (.error e), s1) := by
  rw [observe_apply, h]

theorem print_rerun_if_changed_ok {env : GitEnv} {dir : Bytes} {out : Bytes}
    (h : env.exec dir absGitDirCmd = .exited (some 0) out) (hne : out ≠ [])
    (sources : List Bytes) (s : RunState) :
    print_rerun_if_changed env dir sources s =
      (.ok (), ⟨s.trace ++ [absGitDirCmd],
        s.sink ++ rerunLines out.dropLast sources⟩) := by
  unfold print_rerun_if_changed
  rw [M.bind_apply_ok _ (git_raw_output_ok h s)]
  rw [M.bind_apply_ok _ (sliceUpToLenMinusOne_ok hne _)]
  rw [M.bind_apply_ok _ (bytes_to_path_apply _ _)]
  rw [M.bind_apply_ok _ (try_for_each_emit _ PATHS _)]
  rw [M.bind_apply_ok _ (try_for_each_emit _ sources _)]
  simp [M.pure_apply, rerunLines]

theorem print_rerun_if_changed_noLaunch {env : GitEnv} {dir : Bytes}
    (h : env.exec dir absGitDirCmd = .noLaunch)
    (sources : List Bytes) (s : RunState) :
    print_rerun_if_changed env dir sources s =
      (.error (.grev (.launch absGitDirCmd)), ⟨s.trace ++ [absGitDirCmd], s.sink⟩) := by
  unfold print_rerun_if_changed
  rw [M.bind_apply_error _ (git_raw_output_noLaunch h s)]

theorem print_rerun_if_changed_exitFail {env : GitEnv} {dir : Bytes}
    {code : Option Int} {out : Bytes}
    (h : env.exec dir absGitDirCmd = .exited code out) (hc : code ≠ some 0)
    (sources : List Bytes) (s : RunState) :
    print_rerun_if_changed env dir sources s =
      (.error (.grev (.exitStatus absGitDirCmd code)),
       ⟨s.trace ++ [absGitDirCmd], s.sink⟩) := by
  unfold print_rerun_if_changed
  rw [M.bind_apply_error _ (git_raw_output_exitFail h hc s)]

theorem print_rerun_if_changed_panic {env : GitEnv} {dir : Bytes}
    (h : env.exec dir absGitDirCmd = .exited (some 0) [])
    (sources : List Bytes) (s : RunState) :
    print_rerun_if_changed env dir sources s =
      (.error .panic, ⟨s.trace ++ [absGitDirCmd], s.sink⟩) := by
  unfold print_rerun_if_changed
  rw [M.bind_apply_ok _ (git_raw_output_ok h s)]
  rw [M.bind_apply_error _ (sliceUpToLenMinusOne_panic _)]

theorem with_valid_git_true {env : GitEnv} {dir : Bytes} {out : Bytes}
    (h : env.exec dir probeCmd = .exited (some 0) out)
    (f : M (Option Str)) (s : RunState) :
    with_valid_git env dir f s = f ⟨s.trace ++ [probeCmd], s.sink⟩ := by
  unfold with_valid_git
  rw [M.bind_apply_ok _ (git_run_apply env dir probeCmd s), h]
  rfl

theorem with_valid_git_false {env : GitEnv} {dir : Bytes} {code : Option Int} {out : Bytes}
    (h : env.exec dir probeCmd = .exited code out) (hc : code ≠ some 0)
    (f : M (Option Str)) (s : RunState) :
    with_valid_git env dir f s =
      (.ok none, ⟨s.trace ++ [probeCmd], s.sink ++ [.warnNotInRepo]⟩) := by
  unfold with_valid_git
  rw [M.bind_apply_ok _ (git_run_apply env dir probeCmd s), h]
  have hd : decide (code = some 0) = false := by simp [hc]
  simp only [hd]
  rfl

theorem with_valid_git_noLaunch {env : GitEnv} {dir : Bytes}
    (h : env.exec dir probeCmd = .noLaunch)
    (f : M (Option Str)) (s : RunState) :
    with_valid_git env dir f s =
      (.ok none, ⟨s.trace ++ [probeCmd],
        s.sink ++ [.warnGitFailed (.launch probeCmd)]⟩) := by
  unfold with_valid_git
  rw [M.bind_apply_ok _ (git_run_apply env dir probeCmd s), h]
  rfl

theorem revision_bare_impl_tag {env : GitEnv} {dir : Bytes} {gdout tagout : Bytes} {t : Str}
    (hgd : absGitDirOk env dir gdout)
    (ht : env.exec dir describeCmd = .exited (some 0) tagout)
    (hd : decodeUtf8 tagout = some t)
    (sources : List Bytes) (s : RunState) :
    revision_bare_impl env dir sources s =
      (.ok (some (rustTrim t)),
       ⟨s.trace ++ [absGitDirCmd, describeCmd],
        s.sink ++ rerunLines gdout.dropLast sources⟩) := by
  unfold revision_bare_impl
  rw [M.bind_apply_ok _ (print_rerun_if_changed_ok hgd.1 hgd.2 sources s)]
  rw [M.bind_apply_ok _ (observe_apply_ok (git_output_ok ht hd _))]
  simp [M.bind_apply, M.pure_apply]

theorem revision_bare_impl_fallback {env : GitEnv} {dir : Bytes} {gdout hashout : Bytes}
    {t : Str}
    (hgd : absGitDirOk env dir gdout)
    (ht : textCmdFails env dir describeCmd)
    (hh : env.exec dir shortHashCmd = .exited (some 0) hashout)
    (hd : decodeUtf8 hashout = some t)
    (sources : List Bytes) (s : RunState) :
    revision_bare_impl env dir sources s =
      (.ok (some (rustTrim t)),
       ⟨s.trace ++ [absGitDirCmd, describeCmd, shortHashCmd],
        s.sink ++ rerunLines gdout.dropLast sources⟩) := by
  unfold revision_bare_impl
  rw [M.bind_apply_ok _ (print_rerun_if_changed_ok hgd.1 hgd.2 sources s)]
  obtain ⟨e, he⟩ := git_output_fails ht (⟨s.trace ++ [absGitDirCmd],
    s.sink ++ rerunLines gdout.dropLast sources⟩ : RunState)
  rw [M.bind_apply_ok _ (observe_apply_grev he)]
  show (git_output env dir shortHashCmd >>= fun y => pure (some (rustTrim y)))
    (⟨(s.trace ++ [absGitDirCmd]) ++ [describeCmd],
      s.sink ++ rerunLines gdout.dropLast sources⟩ : RunState) = _
  rw [M.bind_apply_ok _ (git_output_ok hh hd _)]
  simp [M.pure_apply]

theorem revision_bare_impl_fallback_err {env : GitEnv} {dir : Bytes} {gdout : Bytes}
    (hgd : absGitDirOk env dir gdout)
    (ht : textCmdFails env dir describeCmd)
    (hh : textCmdFails env dir shortHashCmd)
    (sources : List Bytes) (s : RunState) :
    ∃ e, revision_bare_impl env dir sources s =
      (.error (.grev e),
       ⟨s.trace ++ [absGitDirCmd, describeCmd, shortHashCmd],
        s.sink ++ rerunLines gdout.dropLast sources⟩) := by
  unfold revision_bare_impl
  rw [M.bind_apply_ok _ (print_rerun_if_changed_ok hgd.1 hgd.2 sources s)]
  obtain ⟨e1, he1⟩ := git_output_fails ht (⟨s.trace ++ [absGitDirCmd],
    s.sink ++ rerunLines gdout.dropLast sources⟩ : RunState)
  rw [M.bind_apply_ok _ (observe_apply_grev he1)]
  obtain ⟨e2, he2⟩ := git_output_fails hh (⟨(s.trace ++ [absGitDirCmd]) ++ [describeCmd],
    s.sink ++ rerunLines gdout.dropLast sources⟩ : RunState)
  refine ⟨e2, ?_⟩
  show (git_output env dir shortHashCmd >>= fun y => pure (some (rustTrim y)))
    (⟨(s.trace ++ [absGitDirCmd]) ++ [describeCmd],
      s.sink ++ rerunLines gdout.dropLast sources⟩ : RunState) = _
  rw [M.bind_apply_error _ he2]
  simp

theorem revision_impl_of_bare_some {env : GitEnv} {dir : Bytes} {sources : List Bytes}
    {s s1 : RunState} {base : Str}
    (hb : revision_bare_impl env dir sources s = (.ok (some base), s1))
    {stout : Bytes}
    (hst : env.exec dir statusCmd = .exited (some 0) stout) :
    revision_impl env dir sources s =
      (.ok (some (base ++ if stout.isEmpty then [] else ['+'])),
       ⟨s1.trace ++ [statusCmd], s1.sink⟩) := by
  unfold revision_impl
  rw [M.bind_apply_ok _ hb]
  show (git_raw_output env dir statusCmd >>= fun local_changes =>
    pure (some (base ++ if (!local_changes.isEmpty) = true then ['+'] else []))) s1 = _
  rw [M.bind_apply_ok _ (git_raw_output_ok hst s1)]
  cases stout <;> simp [M.pure_apply]

theorem revision_impl_of_bare_err {env : GitEnv} {dir : Bytes} {sources : List Bytes}
    {s s1 : RunState} {e : RunError}
    (hb : revision_bare_impl env dir sources s = (.error e, s1)) :
    revision_impl env dir sources s = (.error e, s1) := by
  unfold revision_impl
  rw [M.bind_apply_error _ hb]

theorem collectResults_join (tl : Bytes) (l : List Bytes) (s : RunState) :
    collectResults l (fun object => do
      let p ← bytes_to_path object
      pure (pathJoin tl p)) s = (.ok (l.map (pathJoin tl)), s) := by
  induction l generalizing s with
  | nil => rfl
  | cons x xs ih =>
    unfold collectResults
    rw [M.bind_apply_ok _ (show
      ((bytes_to_path x >>= fun p => pure (pathJoin tl p)) : M Bytes) s =
        (.ok (pathJoin tl x), s) from rfl)]
    rw [M.bind_apply_ok _ (ih s)]
    rfl

theorem list_tracked_objects_ok {env : GitEnv} {dir : Bytes} {tlout lsout : Bytes}
    (htl : env.exec dir topLevelCmd = .exited (some 0) tlout) (hne : tlout ≠ [])
    (hls : env.exec dir (lsFilesCmd tlout.dropLast) = .exited (some 0) lsout)
    (s : RunState) :
    list_tracked_objects env dir s =
      (.ok (((splitOnNul lsout).filter fun o => !o.isEmpty).map
              (pathJoin tlout.dropLast)),
       ⟨s.trace ++ [topLevelCmd, lsFilesCmd tlout.dropLast], s.sink⟩) := by
  unfold list_tracked_objects
  rw [M.bind_apply_ok _ (git_raw_output_ok htl s)]
  rw [M.bind_apply_ok _ (sliceUpToLenMinusOne_ok hne _)]
  rw [M.bind_apply_ok _ (bytes_to_path_apply _ _)]
  rw [M.bind_apply_ok _ (git_raw_output_ok hls _)]
  rw [M.bind_apply_ok _ (collectResults_join _ _ _)]
  simp [M.pure_apply]

theorem splitOnNul_cons_notNul {b : Nat} (hb : b ≠ 0) (l : Bytes) :
    splitOnNul (b :: l) =
      match splitOnNul l with
      | s :: ss => (b :: s) :: ss
      | [] => [[b]] := by
  conv_lhs => rw [splitOnNul.eq_def]
  simp [hb]

theorem splitOnNul_append_nul {a : Bytes} (ha : (0 : Nat) ∉ a) (l : Bytes) :
    splitOnNul (a ++ 0 :: l) = a :: splitOnNul l := by
  induction a with
  | nil => rfl
  | cons b bs ih =>
    have hb : b ≠ 0 := by
      intro h
      exact ha (h ▸ List.mem_cons_self b bs)
    have hbs : (0 : Nat) ∉ bs := fun h => ha (List.mem_cons_of_mem b h)
    rw [List.cons_append, splitOnNul_cons_notNul hb, ih hbs]

theorem splitOnNul_nulConcat {names : List Bytes} (h : ∀ n ∈ names, (0 : Nat) ∉ n) :
    splitOnNul (nulConcat names) = names ++ [[]] := by
  induction names with
  | nil => rfl
  | cons n ns ih =>
    have hn : (0 : Nat) ∉ n := h n (List.mem_cons_self n ns)
    have hns : ∀ m ∈ ns, (0 : Nat) ∉ m := fun m hm => h m (List.mem_cons_of_mem n hm)
    show splitOnNul (n ++ 0 :: nulConcat ns) = (n :: ns) ++ [[]]
    rw [splitOnNul_append_nul hn, ih hns]
    rfl

theorem filter_nonempty_of_wellformed {names : List Bytes}
    (h : ∀ n ∈ names, n ≠ []) :
    ((names ++ [[]]).filter fun o => !o.isEmpty) = names := by
  rw [List.filter_append]
  have h1 : (names.filter fun o => !o.isEmpty) = names := by
    apply List.filter_eq_self.mpr
    intro a ha
    simpa [List.isEmpty_iff] using h a ha
  have h2 : (([([] : Bytes)]).filter fun o => !o.isEmpty) = [] := rfl
  rw [h1, h2, List.append_nil]

/-! ## Properties of `rustTrim` -/

theorem head?_dropWhile_not {p : Char → Bool} {l : Str} {c : Char}
    (h : (l.dropWhile p).head? = some c) : p c = false := by
  induction l with
  | nil => simp [List.dropWhile] at h
  | cons x xs ih =>
    rw [List.dropWhile_cons] at h
    by_cases hx : p x = true
    · exact ih (by simpa [hx] using h)
    · simp [hx] at h
      subst h
      simpa using hx

theorem mem_dropWhile_of_not {p : Char → Bool} {l : Str} {c : Char}
    (hc : c ∈ l) (hpc : p c = false) : c ∈ l.dropWhile p := by
  induction l with
  | nil => exact absurd hc (List.not_mem_nil c)
  | cons x xs ih =>
    rw [List.dropWhile_cons]
    by_cases hx : p x = true
    · have hcx : c ≠ x := by
        intro h
        rw [h, hx] at hpc
        exact Bool.noConfusion hpc
      rcases List.mem_cons.mp hc with h | h
      · exact absurd h hcx
      · simpa [hx] using ih h
    · simpa [hx] using hc

theorem rustTrim_head? {s : Str} {c : Char}
    (h : (rustTrim s).head? = some c) : isRustWhitespace c = false := by
  unfold rustTrim at h
  set t := s.dropWhile isRustWhitespace with ht
  have hpre : (t.reverse.dropWhile isRustWhitespace).reverse <+: t := by
    have h0 : t.reverse.dropWhile isRustWhitespace <:+ t.reverse :=
      List.dropWhile_suffix _
    have h1 := List.reverse_prefix.mpr h0
    rwa [List.reverse_reverse] at h1
  obtain ⟨w, hw⟩ := hpre
  have hne : (t.reverse.dropWhile isRustWhitespace).reverse ≠ [] := by
    intro hnil
    rw [hnil] at h
    exact Option.noConfusion h
  have : t.head? = some c := by
    rw [← hw]
    cases hx : (t.reverse.dropWhile isRustWhitespace).reverse with
    | nil => exact absurd hx hne
    | cons y ys =>
      rw [hx] at h
      simp at h
      subst h
      simp [hx]
  exact head?_dropWhile_not (ht ▸ this)

theorem rustTrim_getLast? {s : Str} {c : Char}
    (h : (rustTrim s).getLast? = some c) : isRustWhitespace c = false := by
  unfold rustTrim at h
  rw [← List.head?_reverse, List.reverse_reverse] at h
  exact head?_dropWhile_not h

theorem textCmdOk_of_not_fails {env : GitEnv} {dir : Bytes} {args : List Bytes}
    (h : ¬ textCmdFails env dir args) :
    ∃ out t, env.exec dir args = .exited (some 0) out ∧ decodeUtf8 out = some t := by
  unfold textCmdFails at h
  cases hx : env.exec dir args with
  | noLaunch =>
    rw [hx] at h
    exact absurd trivial h
  | exited code out =>
    rw [hx] at h
    have h12 := not_or.mp h
    have h1 : code = some 0 := not_not.mp h12.1
    have h2 : decodeUtf8 out ≠ none := h12.2
    cases hdec : decodeUtf8 out with
    | none => exact absurd hdec h2
    | some t =>
      refine ⟨out, t, ?_, hdec⟩
      simp only [hx, h1]

theorem revision_bare_impl_print_err {env : GitEnv} {dir : Bytes} {sources : List Bytes}
    {s s1 : RunState} {e : RunError}
    (hp : print_rerun_if_changed env dir sources s = (.error e, s1)) :
    revision_bare_impl env dir sources s = (.error e, s1) := by
  unfold revision_bare_impl
  rw [M.bind_apply_error _ hp]

theorem revision_bare_impl_trace (env : GitEnv) (dir : Bytes) (sources : List Bytes)
    (s : RunState) :
    ∃ l, (revision_bare_impl env dir sources s).2.trace = s.trace ++ l ∧
      ∀ c ∈ l, c = absGitDirCmd ∨ c = describeCmd ∨ c = shortHashCmd := by
  cases hgd : env.exec dir absGitDirCmd with
  | noLaunch =>
    rw [revision_bare_impl_print_err (print_rerun_if_changed_noLaunch hgd sources s)]
    exact ⟨[absGitDirCmd], rfl, by simp⟩
  | exited code out =>
    by_cases hc : code = some 0
    · subst hc
      by_cases hout : out = []
      · subst hout
        rw [revision_bare_impl_print_err (print_rerun_if_changed_panic hgd sources s)]
        exact ⟨[absGitDirCmd], rfl, by simp⟩
      · have hgdok : absGitDirOk env dir out := ⟨hgd, hout⟩
        by_cases hdf : textCmdFails env dir describeCmd
        · by_cases hsf : textCmdFails env dir shortHashCmd
          · obtain ⟨e, he⟩ := revision_bare_impl_fallback_err hgdok hdf hsf sources s
            rw [he]
            refine ⟨[absGitDirCmd, describeCmd, shortHashCmd], rfl, ?_⟩
            intro c hcm
            simpa using hcm
          · obtain ⟨hout2, t, hhb, hht⟩ := textCmdOk_of_not_fails hsf
            rw [revision_bare_impl_fallback hgdok hdf hhb hht sources s]
            refine ⟨[absGitDirCmd, describeCmd, shortHashCmd], rfl, ?_⟩
            intro c hcm
            simpa using hcm
        · obtain ⟨dout, t, hdo, hdt⟩ := textCmdOk_of_not_fails hdf
          rw [revision_bare_impl_tag hgdok hdo hdt sources s]
          refine ⟨[absGitDirCmd, describeCmd], rfl, ?_⟩
          intro c hcm
          have h2 : c = absGitDirCmd ∨ c = describeCmd := by simpa using hcm
          tauto
    · rw [revision_bare_impl_print_err (print_rerun_if_changed_exitFail hgd hc sources s)]
      exact ⟨[absGitDirCmd], rfl, by simp⟩

theorem revision_bare_impl_ok_shape {env : GitEnv} {dir : Bytes} {sources : List Bytes}
    {s s1 : RunState} {r : Option Str}
    (h : revision_bare_impl env dir sources s = (.ok r, s1)) :
    ∃ t, r = some (rustTrim t) ∧ baseResolved env dir t := by
  cases hgd : env.exec dir absGitDirCmd with
  | noLaunch =>
    rw [revision_bare_impl_print_err (print_rerun_if_changed_noLaunch hgd sources s)] at h
    simp at h
  | exited code out =>
    by_cases hc : code = some 0
    · subst hc
      by_cases hout : out = []
      · subst hout
        rw [revision_bare_impl_print_err (print_rerun_if_changed_panic hgd sources s)] at h
        simp at h
      · have hgdok : absGitDirOk env dir out := ⟨hgd, hout⟩
        by_cases hdf : textCmdFails env dir describeCmd
        · by_cases hsf : textCmdFails env dir shortHashCmd
          · obtain ⟨e, he⟩ := revision_bare_impl_fallback_err hgdok hdf hsf sources s
            rw [he] at h
            simp at h
          · obtain ⟨hout2, t, hhb, hht⟩ := textCmdOk_of_not_fails hsf
            rw [revision_bare_impl_fallback hgdok hdf hhb hht sources s] at h
            simp only [Prod.mk.injEq, Except.ok.injEq] at h
            exact ⟨t, h.1.symm, .inr ⟨hdf, hout2, hhb, hht⟩⟩
        · obtain ⟨dout, t, hdo, hdt⟩ := textCmdOk_of_not_fails hdf
          rw [revision_bare_impl_tag hgdok hdo hdt sources s] at h
          simp only [Prod.mk.injEq, Except.ok.injEq] at h
          exact ⟨t, h.1.symm, .inl ⟨dout, hdo, hdt⟩⟩
    · rw [revision_bare_impl_print_err (print_rerun_if_changed_exitFail hgd hc sources s)] at h
      simp at h

theorem revision_impl_of_bare_none {env : GitEnv} {dir : Bytes} {sources : List Bytes}
    {s s1 : RunState}
    (hb : revision_bare_impl env dir sources s = (.ok none, s1)) :
    revision_impl env dir sources s = (.ok none, s1) := by
  unfold revision_impl
  rw [M.bind_apply_ok _ hb]
  rfl

theorem revision_impl_status_err {env : GitEnv} {dir : Bytes} {sources : List Bytes}
    {s s1 : RunState} {base : Str}
    (hb : revision_bare_impl env dir sources s = (.ok (some base), s1))
    (hst : env.exec dir statusCmd = .noLaunch ∨
      ∃ c o, env.exec dir statusCmd = .exited c o ∧ c ≠ some 0) :
    ∃ e, revision_impl env dir sources s =
      (.error (.grev e), ⟨s1.trace ++ [statusCmd], s1.sink⟩) := by
  unfold revision_impl
  rw [M.bind_apply_ok _ hb]
  show ∃ e, (git_raw_output env dir statusCmd >>= fun local_changes =>
    pure (some (base ++ if (!local_changes.isEmpty) = true then ['+'] else []))) s1 = _
  rcases hst with h | ⟨c, o, h, hc⟩
  · exact ⟨_, M.bind_apply_error _ (git_raw_output_noLaunch h s1)⟩
  · exact ⟨_, M.bind_apply_error _ (git_raw_output_exitFail h hc s1)⟩

theorem revision_impl_ok_some_shape {env : GitEnv} {dir : Bytes} {sources : List Bytes}
    {s s1 : RunState} {rev : Str}
    (h : revision_impl env dir sources s = (.ok (some rev), s1)) :
    ∃ t, (rev = rustTrim t ∨ rev = rustTrim t ++ ['+']) ∧ baseResolved env dir t := by
  rcases hb : revision_bare_impl env dir sources s with ⟨res, sb⟩
  cases res with
  | error e =>
    rw [revision_impl_of_bare_err hb] at h
    simp at h
  | ok a =>
    cases a with
    | none =>
      rw [revision_impl_of_bare_none hb] at h
      simp at h
    | some base =>
      obtain ⟨t, hbase, hsrc⟩ := revision_bare_impl_ok_shape hb
      have hbase2 : base = rustTrim t := by
        simpa using hbase
      cases hst : env.exec dir statusCmd with
      | noLaunch =>
        obtain ⟨e, he⟩ := revision_impl_status_err hb (.inl hst)
        rw [he] at h
        simp at h
      | exited code out =>
        by_cases hc : code = some 0
        · subst hc
          rw [revision_impl_of_bare_some hb hst] at h
          simp only [Prod.mk.injEq, Except.ok.injEq, Option.some.injEq] at h
          refine ⟨t, ?_, hsrc⟩
          rw [← h.1, hbase2]
          cases out with
          | nil => left; simp
          | cons b bs => right; simp
        · obtain ⟨e, he⟩ := revision_impl_status_err hb (.inr ⟨code, out, hst, hc⟩)
          rw [he] at h
          simp at h

theorem with_valid_git_cases (env : GitEnv) (dir : Bytes) (f : M (Option Str))
    (s : RunState) :
    (∃ w, with_valid_git env dir f s =
        (.ok none, ⟨s.trace ++ [probeCmd], s.sink ++ [w]⟩)) ∨
    (∃ out, env.exec dir probeCmd = .exited (some 0) out ∧
        with_valid_git env dir f s = f ⟨s.trace ++ [probeCmd], s.sink⟩) := by
  cases hp : env.exec dir probeCmd with
  | noLaunch =>
    exact .inl ⟨_, with_valid_git_noLaunch hp f s⟩
  | exited code out =>
    by_cases hc : code = some 0
    · subst hc
      exact .inr ⟨out, rfl, with_valid_git_true hp f s⟩
    · exact .inl ⟨_, with_valid_git_false hp hc f s⟩

theorem pair_of_fst {α β : Type} {p : α × β} {a : α} (h : p.1 = a) : p = (a, p.2) := by
  rw [← h]

theorem list_tracked_objects_ls_noLaunch {env : GitEnv} {dir : Bytes} {tlout : Bytes}
    (htl : env.exec dir topLevelCmd = .exited (some 0) tlout) (hne : tlout ≠ [])
    (hls : env.exec dir (lsFilesCmd tlout.dropLast) = .noLaunch) (s : RunState) :
    list_tracked_objects env dir s =
      (.error (.grev (.launch (lsFilesCmd tlout.dropLast))),
       ⟨s.trace ++ [topLevelCmd, lsFilesCmd tlout.dropLast], s.sink⟩) := by
  unfold list_tracked_objects
  rw [M.bind_apply_ok _ (git_raw_output_ok htl s)]
  rw [M.bind_apply_ok _ (sliceUpToLenMinusOne_ok hne _)]
  rw [M.bind_apply_ok _ (bytes_to_path_apply _ _)]
  rw [M.bind_apply_error _ (git_raw_output_noLaunch hls _)]
  simp

theorem list_tracked_objects_ls_exitFail {env : GitEnv} {dir : Bytes} {tlout : Bytes}
    {code : Option Int} {out : Bytes}
    (htl : env.exec dir topLevelCmd = .exited (some 0) tlout) (hne : tlout ≠ [])
    (hls : env.exec dir (lsFilesCmd tlout.dropLast) = .exited code out)
    (hc : code ≠ some 0) (s : RunState) :
    list_tracked_objects env dir s =
      (.error (.grev (.exitStatus (lsFilesCmd tlout.dropLast) code)),
       ⟨s.trace ++ [topLevelCmd, lsFilesCmd tlout.dropLast], s.sink⟩) := by
  unfold list_tracked_objects
  rw [M.bind_apply_ok _ (git_raw_output_ok htl s)]
  rw [M.bind_apply_ok _ (sliceUpToLenMinusOne_ok hne _)]
  rw [M.bind_apply_ok _ (bytes_to_path_apply _ _)]
  rw [M.bind_apply_error _ (git_raw_output_exitFail hls hc _)]
  simp

theorem with_valid_git_soft {env : GitEnv} {dir : Bytes} (f : M (Option Str))
    (h : env.exec dir probeCmd = .noLaunch ∨
      ∃ c o, env.exec dir probeCmd = .exited c o ∧ c ≠ some 0) :
    ∃ w, SinkLine.isWarning w ∧
      runM (with_valid_git env dir f) = (.ok none, ⟨[probeCmd], [w]⟩) := by
  rcases h with h | ⟨c, o, h, hc⟩
  · exact ⟨.warnGitFailed (.launch probeCmd), trivial,
      with_valid_git_noLaunch h f RunState.init⟩
  · exact ⟨.warnNotInRepo, trivial, with_valid_git_false h hc f RunState.init⟩

theorem wvg_revision_impl_ok_some {env : GitEnv} {dir : Bytes} {sources : List Bytes}
    {s s1 : RunState} {rev : Str}
    (h : with_valid_git env dir (revision_impl env dir sources) s = (.ok (some rev), s1)) :
    ∃ t, (rev = rustTrim t ∨ rev = rustTrim t ++ ['+']) ∧ baseResolved env dir t := by
  rcases with_valid_git_cases env dir (revision_impl env dir sources) s with
    ⟨w, hw⟩ | ⟨out, hp, hw⟩
  · rw [hw] at h
    simp at h
  · rw [hw] at h
    exact revision_impl_ok_some_shape h

theorem git_revision_bare_ok_some {env : GitEnv} {dir : Bytes} {s s1 : RunState} {rev : Str}
    (h : git_revision_bare env dir s = (.ok (some rev), s1)) :
    ∃ t, rev = rustTrim t ∧ baseResolved env dir t := by
  unfold git_revision_bare at h
  rcases with_valid_git_cases env dir (revision_bare_impl env dir []) s with
    ⟨w, hw⟩ | ⟨out, hp, hw⟩
  · rw [hw] at h
    simp at h
  · rw [hw] at h
    obtain ⟨t, ht, hsrc⟩ := revision_bare_impl_ok_shape h
    exact ⟨t, by simpa using ht, hsrc⟩

theorem git_revision_auto_ok_some {env : GitEnv} {dir : Bytes} {s s1 : RunState} {rev : Str}
    (h : git_revision_auto env dir s = (.ok (some rev), s1)) :
    ∃ t, (rev = rustTrim t ∨ rev = rustTrim t ++ ['+']) ∧ baseResolved env dir t := by
  unfold git_revision_auto at h
  rcases with_valid_git_cases env dir _ s with ⟨w, hw⟩ | ⟨out, hp, hw⟩
  · rw [hw] at h
    simp at h
  · rw [hw] at h
    rcases hl : list_tracked_objects env dir (⟨s.trace ++ [probeCmd], s.sink⟩ : RunState)
      with ⟨lres, sl⟩
    cases lres with
    | error e =>
      rw [M.bind_apply_error _ hl] at h
      simp at h
    | ok sources =>
      rw [M.bind_apply_ok _ hl] at h
      exact revision_impl_ok_some_shape h

theorem git_revision_bare_trace (env : GitEnv) (dir : Bytes) (s : RunState) :
    ∃ l, (git_revision_bare env dir s).2.trace = s.trace ++ l ∧
      ∀ c ∈ l, c = probeCmd ∨ c = absGitDirCmd ∨ c = describeCmd ∨ c = shortHashCmd := by
  unfold git_revision_bare
  rcases with_valid_git_cases env dir (revision_bare_impl env dir []) s with
    ⟨w, hw⟩ | ⟨out, hp, hw⟩
  · rw [hw]
    exact ⟨[probeCmd], rfl, by simp⟩
  · rw [hw]
    obtain ⟨l, hl, hmem⟩ := revision_bare_impl_trace env dir []
      (⟨s.trace ++ [probeCmd], s.sink⟩ : RunState)
    refine ⟨probeCmd :: l, ?_, ?_⟩
    · rw [hl]
      simp
    · intro c hcm
      rcases List.mem_cons.mp hcm with h | h
      · exact .inl h
      · rcases hmem c h with h1 | h1 | h1
        · exact .inr (.inl h1)
        · exact .inr (.inr (.inl h1))
        · exact .inr (.inr (.inr h1))

theorem rustTrim_ne_nil {s : Str} {c : Char}
    (hc : c ∈ s) (hpc : isRustWhitespace c = false) : rustTrim s ≠ [] := by
  unfold rustTrim
  intro hnil
  have h1 : c ∈ s.dropWhile isRustWhitespace := mem_dropWhile_of_not hc hpc
  have h2 : c ∈ (s.dropWhile isRustWhitespace).reverse := List.mem_reverse.mpr h1
  have h3 : c ∈ (s.dropWhile isRustWhitespace).reverse.dropWhile isRustWhitespace :=
    mem_dropWhile_of_not h2 hpc
  have h4 := List.ne_nil_of_mem h3
  rw [← List.reverse_reverse ((s.dropWhile isRustWhitespace).reverse.dropWhile isRustWhitespace),
    hnil] at h4
  exact h4 rfl

/-! ## The claims -/

/-- C1: for every directory that is not inside a git repository (probe
exits non-zero), and likewise whenever the git tool cannot be launched at
all, every public resolution entry point (`get_revision`,
`git_revision_bare`, `git_revision`, `git_revision_auto`) returns
`Ok(None)` after writing a warning directive to the sink, and never
propagates a hard error for these two conditions. -/
theorem grev_claim_C1 (env : GitEnv) (dir : Bytes) (sources : List Bytes)
    (h : env.exec dir probeCmd = .noLaunch ∨
      ∃ c o, env.exec dir probeCmd = .exited c o ∧ c ≠ some 0) :
    (∃ w, SinkLine.isWarning w ∧
      runM (get_revision env dir) = (.ok none, ⟨[probeCmd], [w]⟩)) ∧
    (∃ w, SinkLine.isWarning w ∧
      runM (git_revision_bare env dir) = (.ok none, ⟨[probeCmd], [w]⟩)) ∧
    (∃ w, SinkLine.isWarning w ∧
      runM (git_revision env dir sources) = (.ok none, ⟨[probeCmd], [w]⟩)) ∧
    (∃ w, SinkLine.isWarning w ∧
      runM (git_revision_auto env dir) = (.ok none, ⟨[probeCmd], [w]⟩)) :=
  ⟨with_valid_git_soft _ h, with_valid_git_soft _ h,
   with_valid_git_soft _ h, with_valid_git_soft _ h⟩

/-- Witness for C1: with a tool that cannot be launched, all four entry
points return `Ok(None)` with a single warning line. -/
theorem grev_claim_C1_witness :
    (envNoGit.exec dirRepo probeCmd = .noLaunch ∨
      ∃ c o, envNoGit.exec dirRepo probeCmd = .exited c o ∧ c ≠ some 0) ∧
    ((∃ w, SinkLine.isWarning w ∧
      runM (get_revision envNoGit dirRepo) = (.ok none, ⟨[probeCmd], [w]⟩)) ∧
    (∃ w, SinkLine.isWarning w ∧
      runM (git_revision_bare envNoGit dirRepo) = (.ok none, ⟨[probeCmd], [w]⟩)) ∧
    (∃ w, SinkLine.isWarning w ∧
      runM (git_revision envNoGit dirRepo []) = (.ok none, ⟨[probeCmd], [w]⟩)) ∧
    (∃ w, SinkLine.isWarning w ∧
      runM (git_revision_auto envNoGit dirRepo) = (.ok none, ⟨[probeCmd], [w]⟩))) :=
  ⟨.inl rfl, grev_claim_C1 envNoGit dirRepo [] (.inl rfl)⟩

/-- C10: on the graceful-degradation path (probe reports not-a-repository
or failure to launch the tool), every entry point writes exactly one
warning line to the sink, emits zero rerun-if-changed directives, invokes
no further git command beyond the single probe, and returns `Ok(None)`. -/
theorem grev_claim_C10 (env : GitEnv) (dir : Bytes) (sources : List Bytes) :
    (env.exec dir probeCmd = .noLaunch →
      runM (get_revision env dir) =
        (.ok none, ⟨[probeCmd], [.warnGitFailed (.launch probeCmd)]⟩) ∧
      runM (git_revision_bare env dir) =
        (.ok none, ⟨[probeCmd], [.warnGitFailed (.launch probeCmd)]⟩) ∧
      runM (git_revision env dir sources) =
        (.ok none, ⟨[probeCmd], [.warnGitFailed (.launch probeCmd)]⟩) ∧
      runM (git_revision_auto env dir) =
        (.ok none, ⟨[probeCmd], [.warnGitFailed (.launch probeCmd)]⟩)) ∧
    (∀ c o, env.exec dir probeCmd = .exited c o → c ≠ some 0 →
      runM (get_revision env dir) = (.ok none, ⟨[probeCmd], [.warnNotInRepo]⟩) ∧
      runM (git_revision_bare env dir) = (.ok none, ⟨[probeCmd], [.warnNotInRepo]⟩) ∧
      runM (git_revision env dir sources) = (.ok none, ⟨[probeCmd], [.warnNotInRepo]⟩) ∧
      runM (git_revision_auto env dir) = (.ok none, ⟨[probeCmd], [.warnNotInRepo]⟩)) := by
  constructor
  · intro h
    exact ⟨with_valid_git_noLaunch h _ RunState.init,
      with_valid_git_noLaunch h _ RunState.init,
      with_valid_git_noLaunch h _ RunState.init,
      with_valid_git_noLaunch h _ RunState.init⟩
  · intro c o h hc
    exact ⟨with_valid_git_false h hc _ RunState.init,
      with_valid_git_false h hc _ RunState.init,
      with_valid_git_false h hc _ RunState.init,
      with_valid_git_false h hc _ RunState.init⟩

/-- Witness for C10: a probe exiting with status 128 yields exactly one
`not in a git repository` warning, a trace holding only the probe, and an
`Ok(None)` result for all four entry points. -/
theorem grev_claim_C10_witness :
    envNotRepo.exec dirRepo probeCmd = .exited (some 128) [] ∧
    (runM (get_revision envNotRepo dirRepo) =
      (.ok none, ⟨[probeCmd], [.warnNotInRepo]⟩) ∧
    runM (git_revision_bare envNotRepo dirRepo) =
      (.ok none, ⟨[probeCmd], [.warnNotInRepo]⟩) ∧
    runM (git_revision envNotRepo dirRepo []) =
      (.ok none, ⟨[probeCmd], [.warnNotInRepo]⟩) ∧
    runM (git_revision_auto envNotRepo dirRepo) =
      (.ok none, ⟨[probeCmd], [.warnNotInRepo]⟩)) :=
  ⟨rfl, (grev_claim_C10 envNotRepo dirRepo []).2 (some 128) [] rfl (by decide)⟩

/-- C2: after the repository gate succeeds (and the directive emitter's
metadata lookup behaves), the base identifier is resolved as follows: if
the exact-tag describe invocation succeeds, the base is its output
trimmed; on any failure of that invocation (launch failure, non-zero exit
or invalid UTF-8) the resolver falls back to the short-hash invocation,
whose trimmed output becomes the base, and any failure of this second
invocation propagates as a hard error rather than degrading to `None`. -/
theorem grev_claim_C2 (env : GitEnv) (dir : Bytes) (sources : List Bytes) (s : RunState)
    {gdout : Bytes}
    (hgd : env.exec dir absGitDirCmd = .exited (some 0) gdout) (hne : gdout ≠ []) :
    (∀ tagout t, env.exec dir describeCmd = .exited (some 0) tagout →
      decodeUtf8 tagout = some t →
      (revision_bare_impl env dir sources s).1 = .ok (some (rustTrim t))) ∧
    (textCmdFails env dir describeCmd →
      (∀ hashout t, env.exec dir shortHashCmd = .exited (some 0) hashout →
        decodeUtf8 hashout = some t →
        (revision_bare_impl env dir sources s).1 = .ok (some (rustTrim t))) ∧
      (textCmdFails env dir shortHashCmd →
        ∃ e, (revision_bare_impl env dir sources s).1 = .error (.grev e))) := by
  refine ⟨?_, fun hdf => ⟨?_, fun hsf => ?_⟩⟩
  · intro tagout t ht hd
    rw [revision_bare_impl_tag ⟨hgd, hne⟩ ht hd sources s]
  · intro hashout t hh hd
    rw [revision_bare_impl_fallback ⟨hgd, hne⟩ hdf hh hd sources s]
  · obtain ⟨e, he⟩ := revision_bare_impl_fallback_err ⟨hgd, hne⟩ hdf hsf sources s
    exact ⟨e, by rw [he]⟩

/-- Witness for C2: in a repository with no tag at HEAD (describe exits
with status 128) the resolver returns the short hash, trimmed of its
trailing newline. -/
theorem grev_claim_C2_witness :
    textCmdFails envHash dirRepo describeCmd ∧
    (revision_bare_impl envHash dirRepo [] RunState.init).1 =
      .ok (some ("abc1234".data)) := by
  have h := ((grev_claim_C2 envHash dirRepo [] RunState.init rfl (by decide)).2
    (by decide)).1 (asciiBytes "abc1234" ++ [0x0A]) ("abc1234".data ++ ['\n']) rfl (by rfl)
  refine ⟨by decide, ?_⟩
  rw [h]
  rfl

/-- C3: in the auto variant, the returned string equals the base
identifier with exactly one trailing `+` appended if and only if the
output of the status invocation is non-empty; if that output is empty the
returned string equals the base exactly, so the marker is never
doubled. -/
theorem grev_claim_C3 {env : GitEnv} {dir : Bytes} {sources : List Bytes}
    {s s1 : RunState} {base : Str}
    (hb : revision_bare_impl env dir sources s = (.ok (some base), s1))
    {stout : Bytes}
    (hst : env.exec dir statusCmd = .exited (some 0) stout) :
    ((revision_impl env dir sources s).1 = .ok (some (base ++ ['+'])) ↔ stout ≠ []) ∧
    (stout = [] → (revision_impl env dir sources s).1 = .ok (some base)) := by
  have he := revision_impl_of_bare_some hb hst
  cases stout with
  | nil =>
    constructor
    · constructor
      · intro hplus
        rw [he] at hplus
        simp at hplus
      · intro hne
        exact absurd rfl hne
    · intro _
      rw [he]
      simp
  | cons b bs =>
    constructor
    · constructor
      · intro _
        simp
      · intro _
        rw [he]
        rfl
    · intro h
      exact absurd h (by simp)

/-- Witness for C3: for a repository on tag `v1` with a modified tracked
file, the auto resolver returns `v1+` (single marker). -/
theorem grev_claim_C3_witness :
    envTag.exec dirRepo statusCmd = .exited (some 0) (asciiBytes " M lib.rs" ++ [0x0A]) ∧
    (revision_impl envTag dirRepo [] RunState.init).1 = .ok (some ("v1+".data)) := by
  have hb : revision_bare_impl envTag dirRepo [] RunState.init =
      (.ok (some ("v1".data)),
       ⟨[absGitDirCmd, describeCmd],
        [.rerunIfChanged (asciiBytes "/repo/.git/HEAD"),
         .rerunIfChanged (asciiBytes "/repo/.git/index"),
         .rerunIfChanged (asciiBytes "/repo/.git/refs/")]⟩) := by rfl
  have h := (grev_claim_C3 hb
    (show envTag.exec dirRepo statusCmd = .exited (some 0) (asciiBytes " M lib.rs" ++ [0x0A])
      from rfl)).1.mpr (by decide)
  refine ⟨rfl, ?_⟩
  rw [h]
  rfl

/-- C4: the claim (and section 4.3 of the design) says caller-supplied
source paths are joined against the parent of the metadata directory (the
working-tree root); the code joins them against the metadata directory
itself.  Evaluating the emitter on a repository whose metadata directory
is `/repo/.git` with the relative caller-supplied source path `src`
emits the directive path `/repo/.git/src`, which differs from the
working-tree-root join `/repo/src` the claim requires. -/
theorem grev_claim_C4_divergence :
    (runM (print_rerun_if_changed envTag dirRepo [asciiBytes "src"])).2.sink =
      [.rerunIfChanged (asciiBytes "/repo/.git/HEAD"),
       .rerunIfChanged (asciiBytes "/repo/.git/index"),
       .rerunIfChanged (asciiBytes "/repo/.git/refs/"),
       .rerunIfChanged (asciiBytes "/repo/.git/src")] ∧
    asciiBytes "/repo/.git/src" ≠ pathJoin (asciiBytes "/repo") (asciiBytes "src") :=
  ⟨rfl, by decide⟩

/-- C5: every successful run of the dependency-tracking emitter writes
directives for the metadata directory's `HEAD` file, `index` file and
`refs/` directory, each formed by joining onto the resolved absolute
metadata-directory path (trailing newline stripped first), in that fixed
order, before any extra source-path directives, which follow in their
iteration order. -/
theorem grev_claim_C5 {env : GitEnv} {dir g : Bytes}
    (hgd : env.exec dir absGitDirCmd = .exited (some 0) (g ++ [0x0A]))
    (sources : List Bytes) (s : RunState) :
    print_rerun_if_changed env dir sources s =
      (.ok (), ⟨s.trace ++ [absGitDirCmd],
        s.sink ++
          ([.rerunIfChanged (pathJoin g (asciiBytes "HEAD")),
            .rerunIfChanged (pathJoin g (asciiBytes "index")),
            .rerunIfChanged (pathJoin g (asciiBytes "refs/"))] ++
            sources.map fun p => .rerunIfChanged (pathJoin g p))⟩) := by
  have hne : g ++ [0x0A] ≠ [] := by simp
  have hdl : (g ++ [0x0A]).dropLast = g := by simp
  rw [print_rerun_if_changed_ok hgd hne sources s, hdl]
  rfl

/-- Witness for C5: concrete run emitting the three metadata paths and
then one source path, in order. -/
theorem grev_claim_C5_witness :
    envTag.exec dirRepo absGitDirCmd =
      .exited (some 0) (asciiBytes "/repo/.git" ++ [0x0A]) ∧
    print_rerun_if_changed envTag dirRepo [asciiBytes "/repo/a b"] RunState.init =
      (.ok (), ⟨[absGitDirCmd],
        [.rerunIfChanged (asciiBytes "/repo/.git/HEAD"),
         .rerunIfChanged (asciiBytes "/repo/.git/index"),
         .rerunIfChanged (asciiBytes "/repo/.git/refs/"),
         .rerunIfChanged (asciiBytes "/repo/a b")]⟩) := by
  refine ⟨rfl, ?_⟩
  rw [grev_claim_C5 (g := asciiBytes "/repo/.git") rfl [asciiBytes "/repo/a b"]
    RunState.init]
  rfl

/-- C6: tracked-file auto-discovery splits the NUL-separated ls-files
output on NUL bytes, drops the empty segment produced by the terminating
NUL, and returns each remaining relative path joined against the resolved
top-level directory; an empty listing yields the empty list without
error, and file names containing spaces, newlines or a leading dash are
preserved verbatim as path segments. -/
theorem grev_claim_C6 {env : GitEnv} {dir tl : Bytes} {names : List Bytes}
    (htl : env.exec dir topLevelCmd = .exited (some 0) (tl ++ [0x0A]))
    (hnames : ∀ n ∈ names, n ≠ [] ∧ (0 : Nat) ∉ n)
    (hls : env.exec dir (lsFilesCmd tl) = .exited (some 0) (nulConcat names))
    (s : RunState) :
    (list_tracked_objects env dir s).1 = .ok (names.map (pathJoin tl)) := by
  have hne : tl ++ [0x0A] ≠ [] := by simp
  have hdl : (tl ++ [0x0A]).dropLast = tl := by simp
  have hls2 : env.exec dir (lsFilesCmd ((tl ++ [0x0A]).dropLast)) =
      .exited (some 0) (nulConcat names) := by
    rw [hdl]
    exact hls
  rw [list_tracked_objects_ok htl hne hls2 s]
  show Except.ok _ = _
  rw [splitOnNul_nulConcat (fun n hn => (hnames n hn).2),
    filter_nonempty_of_wellformed (fun n hn => (hnames n hn).1), hdl]

/-- Witness for C6: a listing holding a file name with a space and one
with a leading dash resolves to the two joined paths; an empty listing
resolves to the empty list. -/
theorem grev_claim_C6_witness :
    (envTag.exec dirRepo (lsFilesCmd (asciiBytes "/repo")) =
      .exited (some 0) (nulConcat [asciiBytes "a b", asciiBytes "-c"]) ∧
    (list_tracked_objects envTag dirRepo RunState.init).1 =
      .ok [asciiBytes "/repo/a b", asciiBytes "/repo/-c"]) ∧
    (envHash.exec dirRepo (lsFilesCmd (asciiBytes "/repo")) =
      .exited (some 0) (nulConcat []) ∧
    (list_tracked_objects envHash dirRepo RunState.init).1 = .ok []) := by
  constructor
  · refine ⟨rfl, ?_⟩
    rw [@grev_claim_C6 envTag dirRepo (asciiBytes "/repo")
      [asciiBytes "a b", asciiBytes "-c"] rfl (by decide) rfl RunState.init]
    rfl
  · refine ⟨rfl, ?_⟩
    rw [@grev_claim_C6 envHash dirRepo (asciiBytes "/repo") [] rfl (by decide) rfl
      RunState.init]
    rfl

/-- C7: the bare variant never performs the local-modification status
invocation at all, and every identifier it returns is exactly the trimmed
output of the base-resolution command (no `+` marker is ever appended),
for every repository state. -/
theorem grev_claim_C7 (env : GitEnv) (dir : Bytes) :
    statusCmd ∉ (runM (git_revision_bare env dir)).2.trace ∧
    ∀ rev, (runM (git_revision_bare env dir)).1 = .ok (some rev) →
      ∃ t, rev = rustTrim t ∧ baseResolved env dir t := by
  constructor
  · obtain ⟨l, hl, hmem⟩ := git_revision_bare_trace env dir RunState.init
    intro hin
    have htr : (runM (git_revision_bare env dir)).2.trace = l := by
      show (git_revision_bare env dir RunState.init).2.trace = l
      rw [hl]
      rfl
    rw [htr] at hin
    rcases hmem statusCmd hin with h | h | h | h
    · exact absurd h (by decide)
    · exact absurd h (by decide)
    · exact absurd h (by decide)
    · exact absurd h (by decide)
  · intro rev h
    exact git_revision_bare_ok_some (pair_of_fst h)

/-- Witness for C7: on a dirty repository at tag `v1`, the bare variant
returns plain `v1` and its trace holds no status invocation. -/
theorem grev_claim_C7_witness :
    statusCmd ∉ (runM (git_revision_bare envTag dirRepo)).2.trace ∧
    ∃ t, ("v1".data) = rustTrim t ∧ baseResolved envTag dirRepo t :=
  ⟨(grev_claim_C7 envTag dirRepo).1,
   (grev_claim_C7 envTag dirRepo).2 ("v1".data) (by rfl)⟩

/-- C8: for every `Some(identifier)` returned by a resolution entry
point, provided the tool's successful textual outputs contain at least one
non-whitespace character, the identifier decomposes as a base plus an
optional single trailing `+`, where the base is non-empty and carries no
leading or trailing whitespace (in particular no trailing newline). -/
theorem grev_claim_C8 (env : GitEnv) (dir : Bytes) (sources : List Bytes)
    (H : ∀ out t,
      (env.exec dir describeCmd = .exited (some 0) out ∨
       env.exec dir shortHashCmd = .exited (some 0) out) →
      decodeUtf8 out = some t → ∃ c ∈ t, isRustWhitespace c = false) :
    ∀ rev,
      ((runM (get_revision env dir)).1 = .ok (some rev) ∨
       (runM (git_revision_bare env dir)).1 = .ok (some rev) ∨
       (runM (git_revision env dir sources)).1 = .ok (some rev) ∨
       (runM (git_revision_auto env dir)).1 = .ok (some rev)) →
      ∃ base, (rev = base ∨ rev = base ++ ['+']) ∧ base ≠ [] ∧
        (∀ c, base.head? = some c → isRustWhitespace c = false) ∧
        (∀ c, base.getLast? = some c → isRustWhitespace c = false) := by
  intro rev hdisj
  have hshape : ∃ t, (rev = rustTrim t ∨ rev = rustTrim t ++ ['+']) ∧
      baseResolved env dir t := by
    rcases hdisj with h | h | h | h
    · exact wvg_revision_impl_ok_some (pair_of_fst h)
    · obtain ⟨t, ht, hsrc⟩ := git_revision_bare_ok_some (pair_of_fst h)
      exact ⟨t, .inl ht, hsrc⟩
    · exact wvg_revision_impl_ok_some (pair_of_fst h)
    · exact git_revision_auto_ok_some (pair_of_fst h)
  obtain ⟨t, hform, hsrc⟩ := hshape
  have hnz : ∃ c ∈ t, isRustWhitespace c = false := by
    rcases hsrc with ⟨out, hx, hdec⟩ | ⟨hfail, out, hx, hdec⟩
    · exact H out t (.inl hx) hdec
    · exact H out t (.inr hx) hdec
  obtain ⟨c, hc, hpc⟩ := hnz
  exact ⟨rustTrim t, hform, rustTrim_ne_nil hc hpc,
    fun c2 h2 => rustTrim_head? h2, fun c2 h2 => rustTrim_getLast? h2⟩

/-- Witness for C8: the identifier `v1+` returned by the auto variant on
a dirty repository at tag `v1` decomposes as a non-empty,
whitespace-clean base plus the marker. -/
theorem grev_claim_C8_witness :
    ∃ base, ("v1+".data = base ∨ "v1+".data = base ++ ['+']) ∧ base ≠ [] ∧
      (∀ c, base.head? = some c → isRustWhitespace c = false) ∧
      (∀ c, base.getLast? = some c → isRustWhitespace c = false) := by
  have H : ∀ out t,
      (envTag.exec dirRepo describeCmd = .exited (some 0) out ∨
       envTag.exec dirRepo shortHashCmd = .exited (some 0) out) →
      decodeUtf8 out = some t → ∃ c ∈ t, isRustWhitespace c = false := by
    intro out t hx hdec
    rcases hx with hx | hx
    · rw [show envTag.exec dirRepo describeCmd =
        ExecResult.exited (some 0) (asciiBytes "v1" ++ [0x0A]) from rfl] at hx
      injection hx with h1 h2
      rw [← h2] at hdec
      rw [show decodeUtf8 (asciiBytes "v1" ++ [0x0A]) =
        some ('v' :: '1' :: '\n' :: []) from rfl] at hdec
      injection hdec with h3
      rw [← h3]
      exact ⟨'v', by simp, by decide⟩
    · rw [show envTag.exec dirRepo shortHashCmd = ExecResult.noLaunch from rfl] at hx
      exact ExecResult.noConfusion hx
  exact grev_claim_C8 envTag dirRepo [] H ("v1+".data) (.inr (.inr (.inr (by rfl))))

/-- C9: the trailing-newline stripping in `print_rerun_if_changed` and
`list_tracked_objects` removes the final byte of the captured output
unconditionally; it is panic-free only when that output is non-empty, and
for an empty output the run panics instead of returning an error. -/
theorem grev_claim_C9 (env : GitEnv) (dir : Bytes) (sources : List Bytes) (s : RunState) :
    (env.exec dir absGitDirCmd = .exited (some 0) [] →
      (print_rerun_if_changed env dir sources s).1 = .error .panic) ∧
    (∀ out, env.exec dir absGitDirCmd = .exited (some 0) out → out ≠ [] →
      (print_rerun_if_changed env dir sources s).1 ≠ .error .panic) ∧
    (env.exec dir topLevelCmd = .exited (some 0) [] →
      (list_tracked_objects env dir s).1 = .error .panic) ∧
    (∀ out, env.exec dir topLevelCmd = .exited (some 0) out → out ≠ [] →
      (list_tracked_objects env dir s).1 ≠ .error .panic) := by
  refine ⟨fun h => ?_, fun out h hne => ?_, fun h => ?_, fun out h hne => ?_⟩
  · rw [print_rerun_if_changed_panic h sources s]
  · rw [print_rerun_if_changed_ok h hne sources s]
    simp
  · unfold list_tracked_objects
    rw [M.bind_apply_ok _ (git_raw_output_ok h s)]
    rw [M.bind_apply_error _ (sliceUpToLenMinusOne_panic _)]
  · cases hls : env.exec dir (lsFilesCmd out.dropLast) with
    | noLaunch =>
      rw [list_tracked_objects_ls_noLaunch h hne hls s]
      simp
    | exited code o =>
      by_cases hc : code = some 0
      · subst hc
        rw [list_tracked_objects_ok h hne hls s]
        simp
      · rw [list_tracked_objects_ls_exitFail h hne hls hc s]
        simp

/-- Witness for C9: a tool whose path-reporting commands succeed with
empty output makes both functions panic. -/
theorem grev_claim_C9_witness :
    (print_rerun_if_changed envEmptyMeta dirRepo [] RunState.init).1 = .error .panic ∧
    (list_tracked_objects envEmptyMeta dirRepo RunState.init).1 = .error .panic :=
  ⟨(grev_claim_C9 envEmptyMeta dirRepo [] RunState.init).1 rfl,
   (grev_claim_C9 envEmptyMeta dirRepo [] RunState.init).2.2.1 rfl⟩

end Grev
